import Mathlib

/-!
Shallow embedding of the rsmt2d Rust port: the dual-indexed `DataSquare`
(src/data_square.rs), the `ExtendedDataSquare` wrapper
(src/extended_data_square.rs), the `Codec` interface with its `LeoRSCodec`
stub (src/codec.rs) and the `Tree` interface with its `DefaultTree`
implementation (src/tree.rs).

Modelling conventions:
- A share (`Vec<u8>`) is a `List Nat` of byte values; the empty list is the
  "unset" sentinel, exactly as in the source.
- Rust `u32`/`usize` arithmetic is modelled as exact `Nat` arithmetic.  The
  source computes the width as `(data.len() as f64).sqrt() as u32`; on the
  domain the `u32` width type presumes (share counts below 2^32) the
  truncated `f64` square root coincides with `Nat.sqrt`, which is used here.
- Fallible operations (`Result<T>`) become `Except Error T`.  Methods that
  mutate `&mut self` return the updated structure explicitly; `row_roots` and
  `col_roots`, which both return a value and update the memoisation cache,
  return a pair of the result and the new state.  The `data_mutex` field has
  no observable sequential behaviour and is omitted.
- A `Tree` instance is only ever used linearly (constructed, fed the shares
  of one axis in ascending position order, finalised once), so a tree
  constructor is modelled by the function it induces from the pushed leaf
  sequence to the final `root()` outcome.  `DefaultTree.push` (the only
  implementation in the repository) never fails, so pushes are total and
  only `root()` may fail, with a message that `compute_row_root` wraps in
  `Error.Tree` as in the source.
-/

/-- A share: one `Vec<u8>` cell value; `[]` is the unset sentinel. -/
abbrev Share := List Nat

/-- Axis of a data square (src/lib.rs `enum Axis`). -/
inductive Axis
  | Row
  | Col
deriving DecidableEq

/-- Error taxonomy (src/lib.rs `enum Error`). -/
inductive Error
  | UnevenChunks
  | UnrepairableDataSquare
  | ByzantineData (axis : Axis) (index : Nat) (shares : Option (List Share))
  | TooManyChunks
  | InvalidChunkSize
  | FillerChunkSizeMismatch
  | IncompleteAxis (axis : Axis)
  | Codec (msg : String)
  | Tree (msg : String)
deriving DecidableEq

/-- Behaviour of `TreeConstructorFn` (src/tree.rs): the tree built for a given
axis and index, observed as the map from the leaf sequence pushed in position
order to the outcome of `root()` (see the modelling conventions above). -/
abbrev TreeConstructorFn := Axis → Nat → List Share → Except String Share

/-- `new_default_tree` / `DefaultTree::root` (src/tree.rs): an empty tree
yields the empty root; otherwise the placeholder root is 32 copies of the
total concatenated byte length truncated to `u8`. -/
def new_default_tree : TreeConstructorFn := fun _ _ leaves =>
  if leaves = [] then .ok []
  else .ok (List.replicate 32 ((leaves.map List.length).sum % 256))

/-- Largest candidate `j ≤ m` with `j * j ≤ n` (0 when none), by downward
search. -/
def intSqrtAux (n : Nat) : Nat → Nat
  | 0 => 0
  | m + 1 => if (m + 1) * (m + 1) ≤ n then m + 1 else intSqrtAux n m

/-- The truncated square root `(n as f64).sqrt() as u32` used by
`DataSquare::new`, as the exact integer square root (see the modelling
conventions); defined by executable search and proved equal to `Nat.sqrt`
below. -/
def intSqrt (n : Nat) : Nat := intSqrtAux n n

/-- `DataSquare` (src/data_square.rs).  The source names the two cache fields
`row_roots` and `col_roots`; they are suffixed `_cache` here so the methods of
the same names keep their source names. -/
structure DataSquare where
  square_row : List (List Share)
  square_col : List (List Share)
  width : Nat
  share_size : Nat
  row_roots_cache : Option (List Share)
  col_roots_cache : Option (List Share)
  create_tree_fn : TreeConstructorFn

/-- Row-major storage built by `DataSquare::new`: cell `(r, c)` holds
`data[r * w + c]` (the source fills index `i` into row `i / w`, column
`i % w`; every cell is written since `data.len() = w * w`). -/
def toRows (w : Nat) (data : List Share) : List (List Share) :=
  (List.range w).map (fun r => (List.range w).map (fun c => data.getD (r * w + c) []))

/-- Column-major storage built by `DataSquare::new`:
`square_col[c][r] = square_row[r][c]`. -/
def transposeSquare (w : Nat) (m : List (List Share)) : List (List Share) :=
  (List.range w).map (fun c => (List.range w).map (fun r => (m.getD r []).getD c []))

/-- `DataSquare::new` (src/data_square.rs lines 21-64): reject any non-empty
share whose length differs from `share_size` (`UnevenChunks`), then reject a
non-square share count (`InvalidChunkSize`), else populate both storage views
with empty caches. -/
def DataSquare.new (data : List Share) (tree_creator : TreeConstructorFn)
    (share_size : Nat) : Except Error DataSquare :=
  if data.any (fun share => !share.isEmpty && share.length != share_size) then
    .error .UnevenChunks
  else if intSqrt data.length * intSqrt data.length != data.length then
    .error .InvalidChunkSize
  else
    .ok { square_row := toRows (intSqrt data.length) data
          square_col := transposeSquare (intSqrt data.length) (toRows (intSqrt data.length) data)
          width := intSqrt data.length
          share_size := share_size
          row_roots_cache := none
          col_roots_cache := none
          create_tree_fn := tree_creator }

/-- `DataSquare::row`: bounds-checked access to one row. -/
def DataSquare.row (ds : DataSquare) (row_idx : Nat) : Except Error (List Share) :=
  if row_idx ≥ ds.width then .error .InvalidChunkSize
  else .ok (ds.square_row.getD row_idx [])

/-- `DataSquare::col`: bounds-checked access to one column. -/
def DataSquare.col (ds : DataSquare) (col_idx : Nat) : Except Error (List Share) :=
  if col_idx ≥ ds.width then .error .InvalidChunkSize
  else .ok (ds.square_col.getD col_idx [])

/-- `DataSquare::reset_roots`: drop both root caches entirely. -/
def DataSquare.reset_roots (ds : DataSquare) : DataSquare :=
  { ds with row_roots_cache := none, col_roots_cache := none }

/-- `DataSquare::set_cell` (src/data_square.rs lines 83-104): bounds check,
share-size check, then write both storage views and reset the caches. -/
def DataSquare.set_cell (ds : DataSquare) (row_idx col_idx : Nat) (data : Share) :
    Except Error DataSquare :=
  if row_idx ≥ ds.width ∨ col_idx ≥ ds.width then
    .error .InvalidChunkSize
  else if ¬data.isEmpty ∧ data.length ≠ ds.share_size then
    .error .UnevenChunks
  else
    .ok (DataSquare.reset_roots
      { ds with
        square_row := ds.square_row.set row_idx
          ((ds.square_row.getD row_idx []).set col_idx data)
        square_col := ds.square_col.set col_idx
          ((ds.square_col.getD col_idx []).set row_idx data) })

/-- `DataSquare::get_cell`: bounds-checked read from the row-major view. -/
def DataSquare.get_cell (ds : DataSquare) (row_idx col_idx : Nat) : Except Error Share :=
  if row_idx ≥ ds.width ∨ col_idx ≥ ds.width then .error .InvalidChunkSize
  else .ok ((ds.square_row.getD row_idx []).getD col_idx [])

/-- `DataSquare::compute_row_root` (src/data_square.rs lines 158-170): fetch
the row; an unset share aborts with `IncompleteAxis` before the tree is
finalised; otherwise the tree's root is taken, errors wrapped in
`Error.Tree`. -/
def DataSquare.compute_row_root (ds : DataSquare) (row_idx : Nat) : Except Error Share :=
  match ds.row row_idx with
  | .error e => .error e
  | .ok row =>
    if row.any List.isEmpty then .error (.IncompleteAxis .Row)
    else
      match ds.create_tree_fn .Row row_idx row with
      | .ok root => .ok root
      | .error e => .error (.Tree e)

/-- `DataSquare::compute_col_root`: the column analogue. -/
def DataSquare.compute_col_root (ds : DataSquare) (col_idx : Nat) : Except Error Share :=
  match ds.col col_idx with
  | .error e => .error e
  | .ok col =>
    if col.any List.isEmpty then .error (.IncompleteAxis .Col)
    else
      match ds.create_tree_fn .Col col_idx col with
      | .ok root => .ok root
      | .error e => .error (.Tree e)

/-- The `for` loop shared by `row_roots`/`col_roots`: compute one root per
index, stopping at the first error. -/
def rootsLoop (f : Nat → Except Error Share) : List Nat → Except Error (List Share)
  | [] => .ok []
  | i :: rest =>
    match f i with
    | .error e => .error e
    | .ok r =>
      match rootsLoop f rest with
      | .error e => .error e
      | .ok rs => .ok (r :: rs)

/-- The uncached computation inside `DataSquare::row_roots`. -/
def DataSquare.computeRowRootsList (ds : DataSquare) : Except Error (List Share) :=
  rootsLoop ds.compute_row_root (List.range ds.width)

/-- The uncached computation inside `DataSquare::col_roots`. -/
def DataSquare.computeColRootsList (ds : DataSquare) : Except Error (List Share) :=
  rootsLoop ds.compute_col_root (List.range ds.width)

/-- `DataSquare::row_roots` (src/data_square.rs lines 126-139): return the
cache when present, else compute all row roots and memoise them on success. -/
def DataSquare.row_roots (ds : DataSquare) : Except Error (List Share) × DataSquare :=
  match ds.row_roots_cache with
  | some roots => (.ok roots, ds)
  | none =>
    match ds.computeRowRootsList with
    | .ok roots => (.ok roots, { ds with row_roots_cache := some roots })
    | .error e => (.error e, ds)

/-- `DataSquare::col_roots` (src/data_square.rs lines 142-155). -/
def DataSquare.col_roots (ds : DataSquare) : Except Error (List Share) × DataSquare :=
  match ds.col_roots_cache with
  | some roots => (.ok roots, ds)
  | none =>
    match ds.computeColRootsList with
    | .ok roots => (.ok roots, { ds with col_roots_cache := some roots })
    | .error e => (.error e, ds)

/-- `DataSquare::flattened`: all shares in row-major order. -/
def DataSquare.flattened (ds : DataSquare) : List Share :=
  ds.square_row.flatten

/-- The `Codec` trait (src/codec.rs), as a record of its observable methods.
`decode` mutates its slice in Rust and is modelled as returning the slice. -/
structure Codec where
  encode : List Share → Except Error (List Share)
  decode : List Share → Except Error (List Share)
  max_chunks : Nat
  name : String
  validate_chunk_size : Nat → Except Error Unit

/-- `LeoRSCodec` (src/codec.rs): `encode`/`decode` are unimplemented stubs,
`max_chunks` is 65536 and `validate_chunk_size` accepts everything. -/
def LeoRSCodec : Codec where
  encode := fun _ => .error (.Codec ("not yet implemented"))
  decode := fun _ => .error (.Codec ("not yet implemented"))
  max_chunks := 65536
  name := "LeoRS"
  validate_chunk_size := fun _ => .ok ()

/-- `ExtendedDataSquare` (src/extended_data_square.rs). -/
structure ExtendedDataSquare where
  data_square : DataSquare
  codec : Codec
  original_data_width : Nat

/-- `get_share_size` (src/extended_data_square.rs lines 134-141): the length
of the first non-empty share, 0 if all are empty. -/
def get_share_size (data : List Share) : Nat :=
  match data.find? (fun s => !s.isEmpty) with
  | some s => s.length
  | none => 0

/-- `validate_eds_width` (src/extended_data_square.rs lines 144-149). -/
def validate_eds_width (width : Nat) : Except Error Unit :=
  if width = 0 ∨ width % 2 ≠ 0 then .error .InvalidChunkSize
  else .ok ()

/-- `ExtendedDataSquare::compute` (src/extended_data_square.rs lines 14-38).
The source's erasure extension is an unimplemented TODO: after the capacity
and share-size checks it builds the `DataSquare` of the input as-is and sets
`original_data_width` to that square's width. -/
def ExtendedDataSquare.compute (data : List Share) (codec : Codec)
    (tree_creator_fn : TreeConstructorFn) : Except Error ExtendedDataSquare :=
  if data.length > codec.max_chunks then
    .error .TooManyChunks
  else
    match codec.validate_chunk_size (get_share_size data) with
    | .error e => .error e
    | .ok _ =>
      match DataSquare.new data tree_creator_fn (get_share_size data) with
      | .error e => .error e
      | .ok ds =>
        .ok { data_square := ds, codec := codec, original_data_width := ds.width }

/-- `ExtendedDataSquare::import` (src/extended_data_square.rs lines 41-64). -/
def ExtendedDataSquare.import (data : List Share) (codec : Codec)
    (tree_creator_fn : TreeConstructorFn) : Except Error ExtendedDataSquare :=
  if data.length > 4 * codec.max_chunks then
    .error .TooManyChunks
  else
    match codec.validate_chunk_size (get_share_size data) with
    | .error e => .error e
    | .ok _ =>
      match DataSquare.new data tree_creator_fn (get_share_size data) with
      | .error e => .error e
      | .ok ds =>
        match validate_eds_width ds.width with
        | .error e => .error e
        | .ok _ =>
          .ok { data_square := ds, codec := codec,
                original_data_width := ds.width / 2 }

/-- `ExtendedDataSquare::row_roots`: delegate to the inner `DataSquare`. -/
def ExtendedDataSquare.row_roots (eds : ExtendedDataSquare) :
    Except Error (List Share) × ExtendedDataSquare :=
  match eds.data_square.row_roots with
  | (res, ds) => (res, { eds with data_square := ds })

/-- `ExtendedDataSquare::col_roots`: delegate to the inner `DataSquare`. -/
def ExtendedDataSquare.col_roots (eds : ExtendedDataSquare) :
    Except Error (List Share) × ExtendedDataSquare :=
  match eds.data_square.col_roots with
  | (res, ds) => (res, { eds with data_square := ds })

/-- `ExtendedDataSquare::flattened`. -/
def ExtendedDataSquare.flattened (eds : ExtendedDataSquare) : List Share :=
  eds.data_square.flattened

/-- `ExtendedDataSquare::width`. -/
def ExtendedDataSquare.width (eds : ExtendedDataSquare) : Nat :=
  eds.data_square.width

/-- `ExtendedDataSquare::pre_repair_sanity_check` (src/extended_data_square.rs
lines 109-120): both root lists must have length `width()`. -/
def ExtendedDataSquare.pre_repair_sanity_check (eds : ExtendedDataSquare)
    (row_roots col_roots : List Share) : Except Error Unit :=
  if row_roots.length ≠ eds.width ∨ col_roots.length ≠ eds.width then
    .error .InvalidChunkSize
  else .ok ()

/-- `ExtendedDataSquare::repair` (src/extended_data_square.rs lines 92-106).
The crossword repair algorithm is an unimplemented TODO in the source: after
the sanity check it returns `Error::Codec("repair not yet implemented")`. -/
def ExtendedDataSquare.repair (eds : ExtendedDataSquare)
    (row_roots col_roots : List Share) : Except Error Unit :=
  match eds.pre_repair_sanity_check row_roots col_roots with
  | .error e => .error e
  | .ok _ => .error (.Codec ("repair not yet implemented"))

/-- `ExtendedDataSquare::set_cell`: delegate to the inner `DataSquare`. -/
def ExtendedDataSquare.set_cell (eds : ExtendedDataSquare) (row_idx col_idx : Nat)
    (data : Share) : Except Error ExtendedDataSquare :=
  match eds.data_square.set_cell row_idx col_idx data with
  | .error e => .error e
  | .ok ds => .ok { eds with data_square := ds }

/-- `ExtendedDataSquare::get_cell`: delegate to the inner `DataSquare`. -/
def ExtendedDataSquare.get_cell (eds : ExtendedDataSquare) (row_idx col_idx : Nat) :
    Except Error Share :=
  eds.data_square.get_cell row_idx col_idx

/-- Claim C3's round trip: `compute`, then `import` of the flattened result
with the same codec and tree constructor. -/
def computeThenImport (data : List Share) (codec : Codec)
    (tree_creator_fn : TreeConstructorFn) : Except Error ExtendedDataSquare :=
  match ExtendedDataSquare.compute data codec tree_creator_fn with
  | .error e => .error e
  | .ok eds => ExtendedDataSquare.import eds.flattened codec tree_creator_fn

/-- One step of a `set_cell` sequence: apply the cell write, keeping the
square unchanged when `set_cell` fails (a failing `set_cell` leaves `&mut
self` untouched in the source). -/
def applySet (ds : DataSquare) (op : Nat × Nat × Share) : DataSquare :=
  match ds.set_cell op.1 op.2.1 op.2.2 with
  | .ok updated => updated
  | .error _ => ds

/-- Structural well-formedness of a `DataSquare`: both storage views are
`width × width` and the column-major view mirrors the row-major view. -/
def DataSquare.WF (ds : DataSquare) : Prop :=
  ds.square_row.length = ds.width ∧
  ds.square_col.length = ds.width ∧
  (∀ row ∈ ds.square_row, row.length = ds.width) ∧
  (∀ col ∈ ds.square_col, col.length = ds.width) ∧
  (∀ r, r < ds.width → ∀ c, c < ds.width →
    (ds.square_col.getD c []).getD r [] = (ds.square_row.getD r []).getD c [])

/-- Cache consistency: a populated root cache holds exactly the roots the
current square contents compute to.  Every square reachable through `new`,
`set_cell`, `row_roots` and `col_roots` satisfies this (lemmas below). -/
def DataSquare.CacheValid (ds : DataSquare) : Prop :=
  (∀ roots, ds.row_roots_cache = some roots → ds.computeRowRootsList = .ok roots) ∧
  (∀ roots, ds.col_roots_cache = some roots → ds.computeColRootsList = .ok roots)

/-- Concrete 2×2 square with share size 1 (evaluation fixture for witnesses;
it is the square `DataSquare::new` builds from `[[1],[2],[3],[4]]`). -/
def sampleSquare : DataSquare where
  square_row := [[[1], [2]], [[3], [4]]]
  square_col := [[[1], [3]], [[2], [4]]]
  width := 2
  share_size := 1
  row_roots_cache := none
  col_roots_cache := none
  create_tree_fn := new_default_tree

/-- Concrete 2×2 square with an unset cell at (0, 1) (evaluation fixture; it
is the square `DataSquare::new` builds from `[[1],[],[3],[4]]`). -/
def sampleIncompleteSquare : DataSquare where
  square_row := [[[1], []], [[3], [4]]]
  square_col := [[[1], [3]], [[], [4]]]
  width := 2
  share_size := 1
  row_roots_cache := none
  col_roots_cache := none
  create_tree_fn := new_default_tree

/-- The square `sampleSquare.set_cell 0 0 [9]` produces (evaluation
fixture). -/
def sampleSquareSet : DataSquare where
  square_row := [[[9], [2]], [[3], [4]]]
  square_col := [[[9], [3]], [[2], [4]]]
  width := 2
  share_size := 1
  row_roots_cache := none
  col_roots_cache := none
  create_tree_fn := new_default_tree

/-- Concrete extended data square wrapping `sampleSquare` (evaluation
fixture; it is what `ExtendedDataSquare::import` builds from
`[[1],[2],[3],[4]]` with the `LeoRSCodec`). -/
def sampleEDS : ExtendedDataSquare where
  data_square := sampleSquare
  codec := LeoRSCodec
  original_data_width := 1

/-! ### Helper lemmas: integer square root -/

theorem intSqrtAux_sq_le (n : Nat) : ∀ m, intSqrtAux n m * intSqrtAux n m ≤ n := by
  intro m
  induction m with
  | zero => simp [intSqrtAux]
  | succ k ih =>
    rw [intSqrtAux]
    split
    · assumption
    · exact ih

theorem le_intSqrtAux (n : Nat) : ∀ m j, j ≤ m → j * j ≤ n → j ≤ intSqrtAux n m := by
  intro m
  induction m with
  | zero =>
    intro j hj _
    simpa [intSqrtAux] using hj
  | succ k ih =>
    intro j hj hjn
    rw [intSqrtAux]
    split
    · exact hj
    · rename_i hnot
      rcases Nat.lt_or_ge j (k + 1) with h | h
      · exact ih j (Nat.lt_succ_iff.mp h) hjn
      · have hmul := Nat.mul_le_mul h h
        omega

theorem intSqrt_eq_sqrt (n : Nat) : intSqrt n = Nat.sqrt n := by
  apply Nat.le_antisymm
  · exact Nat.le_sqrt.mpr (intSqrtAux_sq_le n n)
  · exact le_intSqrtAux n n (Nat.sqrt n) (Nat.sqrt_le_self n) (Nat.sqrt_le n)

/-! ### Helper lemmas: list access -/

theorem getD_range_map {α : Type} (f : Nat → α) {w r : Nat} (d : α) (h : r < w) :
    ((List.range w).map f).getD r d = f r := by
  simp [List.getD_eq_getElem?_getD, List.getElem?_map, List.getElem?_range, h]

theorem getD_set_self {α : Type} (l : List α) (i : Nat) (a d : α) (h : i < l.length) :
    (l.set i a).getD i d = a := by
  simp [List.getD_eq_getElem?_getD, List.getElem?_set_self h]

theorem getD_set_ne {α : Type} (l : List α) (i j : Nat) (a d : α) (h : j ≠ i) :
    (l.set i a).getD j d = l.getD j d := by
  simp [List.getD_eq_getElem?_getD, List.getElem?_set_ne (Ne.symm h)]

theorem getD_mem {α : Type} (l : List α) (i : Nat) (d : α) (h : i < l.length) :
    l.getD i d ∈ l := by
  rw [List.getD_eq_getElem?_getD, List.getElem?_eq_getElem h]
  exact List.getElem_mem h

theorem flatten_getD_uniform {α : Type} {w : Nat} :
    ∀ (rows : List (List α)) (r : Nat), (∀ row ∈ rows, row.length = w) →
      r < rows.length → ∀ (c : Nat) (d : α) (dr : List α), c < w →
      rows.flatten.getD (r * w + c) d = (rows.getD r dr).getD c d := by
  intro rows
  induction rows with
  | nil =>
    intro r _ hr
    simp at hr
  | cons row rest ih =>
    intro r hlen hr c d dr hc
    have hrow : row.length = w := hlen row (List.mem_cons_self row rest)
    cases r with
    | zero =>
      simp only [List.flatten_cons, Nat.zero_mul, Nat.zero_add, List.getD_cons_zero]
      rw [List.getD_eq_getElem?_getD, List.getElem?_append, if_pos (by omega),
        ← List.getD_eq_getElem?_getD]
    | succ r0 =>
      have hidx : (r0 + 1) * w + c = row.length + (r0 * w + c) := by
        rw [hrow]
        ring
      simp only [List.flatten_cons, List.getD_cons_succ]
      rw [List.getD_eq_getElem?_getD, hidx, List.getElem?_append_right (by omega)]
      simp only [Nat.add_sub_cancel_left]
      rw [← List.getD_eq_getElem?_getD]
      exact ih r0 (fun x hx => hlen x (List.mem_cons_of_mem _ hx))
        (by simpa using hr) c d dr hc

/-! ### Helper lemmas: the roots loop -/

theorem rootsLoop_error_mem {f : Nat → Except Error Share} :
    ∀ {l : List Nat} {e : Error}, rootsLoop f l = .error e → ∃ i ∈ l, f i = .error e := by
  intro l
  induction l with
  | nil =>
    intro e h
    simp [rootsLoop] at h
  | cons i rest ih =>
    intro e h
    rw [rootsLoop] at h
    split at h
    · rename_i heq
      injection h with h
      exact ⟨i, List.mem_cons_self i rest, by rw [heq, h]⟩
    · split at h
      · rename_i heq
        injection h with h
        obtain ⟨j, hj, hfj⟩ := ih (by rw [heq, h])
        exact ⟨j, List.mem_cons_of_mem _ hj, hfj⟩
      · simp at h

theorem rootsLoop_error_of_mem {f : Nat → Except Error Share} :
    ∀ {l : List Nat} {i : Nat} {e : Error}, i ∈ l → f i = .error e →
      ∃ e2, rootsLoop f l = .error e2 := by
  intro l
  induction l with
  | nil =>
    intro i e hi
    simp at hi
  | cons j rest ih =>
    intro i e hi hfe
    rw [rootsLoop]
    rcases List.mem_cons.mp hi with rfl | hmem
    · exact ⟨e, by rw [hfe]⟩
    · cases hfj : f j with
      | error e2 => exact ⟨e2, rfl⟩
      | ok r =>
        obtain ⟨e2, he2⟩ := ih hmem hfe
        rw [he2]
        exact ⟨e2, rfl⟩

/-! ### Helper lemmas: `DataSquare::new` -/

theorem new_error_uneven {data : List Share} {s : Nat} (t : TreeConstructorFn)
    (h : ∃ x ∈ data, x ≠ [] ∧ x.length ≠ s) :
    DataSquare.new data t s = .error .UnevenChunks := by
  obtain ⟨x, hx, hne, hlen⟩ := h
  have hb : data.any (fun share => !share.isEmpty && share.length != s) = true := by
    rw [List.any_eq_true]
    exact ⟨x, hx, by simp [hne, hlen]⟩
  simp [DataSquare.new, hb]

theorem any_uneven_false {data : List Share} {s : Nat}
    (hu : ∀ x ∈ data, x = [] ∨ x.length = s) :
    data.any (fun share => !share.isEmpty && share.length != s) = false := by
  rw [List.any_eq_false]
  intro x hx
  rcases hu x hx with h | h <;> simp [h]

theorem new_error_nonsquare {data : List Share} {s : Nat} (t : TreeConstructorFn)
    (hu : ∀ x ∈ data, x = [] ∨ x.length = s)
    (hsq : intSqrt data.length * intSqrt data.length ≠ data.length) :
    DataSquare.new data t s = .error .InvalidChunkSize := by
  simp [DataSquare.new, any_uneven_false hu, hsq]

theorem new_eq_ok {data : List Share} {s : Nat} (t : TreeConstructorFn)
    (hu : ∀ x ∈ data, x = [] ∨ x.length = s)
    (hsq : intSqrt data.length * intSqrt data.length = data.length) :
    DataSquare.new data t s =
      .ok { square_row := toRows (intSqrt data.length) data
            square_col := transposeSquare (intSqrt data.length)
              (toRows (intSqrt data.length) data)
            width := intSqrt data.length
            share_size := s
            row_roots_cache := none
            col_roots_cache := none
            create_tree_fn := t } := by
  simp [DataSquare.new, any_uneven_false hu, hsq]

theorem new_ok_elim {data : List Share} {t : TreeConstructorFn} {s : Nat}
    {ds : DataSquare} (h : DataSquare.new data t s = .ok ds) :
    ds = { square_row := toRows (intSqrt data.length) data
           square_col := transposeSquare (intSqrt data.length)
             (toRows (intSqrt data.length) data)
           width := intSqrt data.length
           share_size := s
           row_roots_cache := none
           col_roots_cache := none
           create_tree_fn := t } ∧
    intSqrt data.length * intSqrt data.length = data.length ∧
    (∀ x ∈ data, x = [] ∨ x.length = s) := by
  unfold DataSquare.new at h
  split at h
  · simp at h
  · split at h
    · simp at h
    · rename_i huneven hsq
      refine ⟨?_, ?_, ?_⟩
      · injection h with h
        exact h.symm
      · simpa using hsq
      · intro x hx
        rw [Bool.not_eq_true, List.any_eq_false] at huneven
        have := huneven x hx
        by_cases hxe : x = []
        · exact Or.inl hxe
        · right
          simpa [hxe] using this

/-! ### Helper lemmas: `DataSquare::set_cell` -/

theorem set_cell_ok_elim {ds : DataSquare} {r c : Nat} {d : Share} {ds2 : DataSquare}
    (h : ds.set_cell r c d = .ok ds2) :
    r < ds.width ∧ c < ds.width ∧ (d = [] ∨ d.length = ds.share_size) ∧
    ds2 = { ds with
      square_row := ds.square_row.set r ((ds.square_row.getD r []).set c d)
      square_col := ds.square_col.set c ((ds.square_col.getD c []).set r d)
      row_roots_cache := none
      col_roots_cache := none } := by
  unfold DataSquare.set_cell DataSquare.reset_roots at h
  split at h
  · simp at h
  · split at h
    · simp at h
    · rename_i hbounds hsize
      push_neg at hbounds
      refine ⟨hbounds.1, hbounds.2, ?_, ?_⟩
      · by_cases hde : d = []
        · exact Or.inl hde
        · right
          by_contra hdl
          exact hsize ⟨by simpa using hde, hdl⟩
      · injection h with h
        exact h.symm

theorem set_cell_eq_ok {ds : DataSquare} {r c : Nat} {d : Share}
    (hr : r < ds.width) (hc : c < ds.width) (hd : d = [] ∨ d.length = ds.share_size) :
    ds.set_cell r c d =
      .ok { ds with
        square_row := ds.square_row.set r ((ds.square_row.getD r []).set c d)
        square_col := ds.square_col.set c ((ds.square_col.getD c []).set r d)
        row_roots_cache := none
        col_roots_cache := none } := by
  unfold DataSquare.set_cell DataSquare.reset_roots
  rw [if_neg (by omega), if_neg ?_]
  intro hcon
  rcases hd with hde | hdl
  · exact hcon.1 (by simp [hde])
  · exact hcon.2 hdl

/-! ### Helper lemmas: storage layout -/

theorem toRows_length (w : Nat) (data : List Share) : (toRows w data).length = w := by
  simp [toRows]

theorem toRows_mem_length {w : Nat} {data : List Share} {row : List Share}
    (h : row ∈ toRows w data) : row.length = w := by
  unfold toRows at h
  obtain ⟨r, _, rfl⟩ := List.mem_map.mp h
  simp

theorem transposeSquare_length (w : Nat) (m : List (List Share)) :
    (transposeSquare w m).length = w := by
  simp [transposeSquare]

theorem transposeSquare_mem_length {w : Nat} {m : List (List Share)} {col : List Share}
    (h : col ∈ transposeSquare w m) : col.length = w := by
  unfold transposeSquare at h
  obtain ⟨c, _, rfl⟩ := List.mem_map.mp h
  simp

theorem toRows_getD {w r c : Nat} (data : List Share) (hr : r < w) (hc : c < w) :
    ((toRows w data).getD r []).getD c [] = data.getD (r * w + c) [] := by
  unfold toRows
  rw [getD_range_map _ _ hr, getD_range_map _ _ hc]

theorem transposeSquare_getD {w r c : Nat} (m : List (List Share)) (hr : r < w) (hc : c < w) :
    ((transposeSquare w m).getD c []).getD r [] = (m.getD r []).getD c [] := by
  unfold transposeSquare
  rw [getD_range_map _ _ hc, getD_range_map _ _ hr]

/-! ### Helper lemmas: well-formedness and its preservation -/

theorem new_WF {data : List Share} {t : TreeConstructorFn} {s : Nat}
    {ds : DataSquare} (h : DataSquare.new data t s = .ok ds) : ds.WF := by
  obtain ⟨rfl, hsq, hu⟩ := new_ok_elim h
  refine ⟨toRows_length _ _, transposeSquare_length _ _, ?_, ?_, ?_⟩
  · intro row hrow
    exact toRows_mem_length hrow
  · intro col hcol
    exact transposeSquare_mem_length hcol
  · intro r hr c hc
    exact transposeSquare_getD _ hr hc

theorem set_cell_WF {ds : DataSquare} {r c : Nat} {d : Share} {ds2 : DataSquare}
    (hwf : ds.WF) (h : ds.set_cell r c d = .ok ds2) : ds2.WF := by
  obtain ⟨hr, hc, _, rfl⟩ := set_cell_ok_elim h
  obtain ⟨h1, h2, h3, h4, h5⟩ := hwf
  have hrowmem : ds.square_row.getD r [] ∈ ds.square_row :=
    getD_mem _ r [] (by omega)
  have hcolmem : ds.square_col.getD c [] ∈ ds.square_col :=
    getD_mem _ c [] (by omega)
  have hrowlen : (ds.square_row.getD r []).length = ds.width := h3 _ hrowmem
  have hcollen : (ds.square_col.getD c []).length = ds.width := h4 _ hcolmem
  refine ⟨by simpa using h1, by simpa using h2, ?_, ?_, ?_⟩
  · intro row hrow
    rcases List.mem_or_eq_of_mem_set hrow with hmem | rfl
    · exact h3 row hmem
    · simpa using hrowlen
  · intro col hcol
    rcases List.mem_or_eq_of_mem_set hcol with hmem | rfl
    · exact h4 col hmem
    · simpa using hcollen
  · intro r2 hr2 c2 hc2
    simp only at hr2 hc2 ⊢
    by_cases hceq : c2 = c
    · subst hceq
      rw [getD_set_self _ c2 _ _ (by omega)]
      by_cases hreq : r2 = r
      · subst hreq
        rw [getD_set_self _ r2 _ _ (by omega), getD_set_self _ r2 _ _ (by omega),
          getD_set_self _ c2 _ _ (by omega)]
      · rw [getD_set_ne _ _ _ _ _ hreq, getD_set_ne _ _ _ _ _ hreq]
        exact h5 r2 hr2 c2 hc2
    · rw [getD_set_ne _ _ _ _ _ hceq]
      by_cases hreq : r2 = r
      · subst hreq
        rw [getD_set_self _ r2 _ _ (by omega), getD_set_ne _ _ _ _ _ hceq]
        exact h5 r2 hr2 c2 hc2
      · rw [getD_set_ne _ _ _ _ _ hreq]
        exact h5 r2 hr2 c2 hc2

theorem applySet_WF {ds : DataSquare} (h : ds.WF) (op : Nat × Nat × Share) :
    (applySet ds op).WF := by
  unfold applySet
  split
  · rename_i ds2 hset
    exact set_cell_WF h hset
  · exact h

theorem foldl_applySet_WF : ∀ (ops : List (Nat × Nat × Share)) {ds : DataSquare},
    ds.WF → (ops.foldl applySet ds).WF := by
  intro ops
  induction ops with
  | nil => intro ds h; exact h
  | cons op rest ih =>
    intro ds h
    exact ih (applySet_WF h op)

/-! ### Helper lemmas: root-cache validity -/

theorem new_cacheValid {data : List Share} {t : TreeConstructorFn} {s : Nat}
    {ds : DataSquare} (h : DataSquare.new data t s = .ok ds) : ds.CacheValid := by
  obtain ⟨rfl, _, _⟩ := new_ok_elim h
  exact ⟨fun _ hx => (nomatch hx), fun _ hx => (nomatch hx)⟩

theorem set_cell_cacheValid {ds : DataSquare} {r c : Nat} {d : Share} {ds2 : DataSquare}
    (h : ds.set_cell r c d = .ok ds2) : ds2.CacheValid := by
  obtain ⟨_, _, _, rfl⟩ := set_cell_ok_elim h
  exact ⟨fun _ hx => (nomatch hx), fun _ hx => (nomatch hx)⟩

theorem row_roots_cacheValid {ds : DataSquare} (h : ds.CacheValid) :
    (ds.row_roots).2.CacheValid := by
  unfold DataSquare.row_roots
  split
  · exact h
  · split
    · rename_i hcompute
      exact ⟨fun roots hx => by rw [Option.some_inj.mp hx] at hcompute ⊢; exact hcompute,
        h.2⟩
    · exact h

theorem col_roots_cacheValid {ds : DataSquare} (h : ds.CacheValid) :
    (ds.col_roots).2.CacheValid := by
  unfold DataSquare.col_roots
  split
  · exact h
  · split
    · rename_i hcompute
      exact ⟨h.1,
        fun roots hx => by rw [Option.some_inj.mp hx] at hcompute ⊢; exact hcompute⟩
    · exact h

/-! ### Helper lemmas: per-axis root computation -/

theorem row_ok {ds : DataSquare} {r : Nat} (hr : r < ds.width) :
    ds.row r = .ok (ds.square_row.getD r []) := by
  unfold DataSquare.row
  rw [if_neg (by omega)]

theorem col_ok {ds : DataSquare} {c : Nat} (hc : c < ds.width) :
    ds.col c = .ok (ds.square_col.getD c []) := by
  unfold DataSquare.col
  rw [if_neg (by omega)]

theorem compute_row_root_incomplete {ds : DataSquare} {r : Nat} (hr : r < ds.width)
    (hempty : [] ∈ ds.square_row.getD r []) :
    ds.compute_row_root r = .error (.IncompleteAxis .Row) := by
  unfold DataSquare.compute_row_root
  rw [row_ok hr]
  have hany : (ds.square_row.getD r []).any List.isEmpty = true :=
    List.any_eq_true.mpr ⟨[], hempty, rfl⟩
  dsimp only
  rw [if_pos hany]

theorem compute_col_root_incomplete {ds : DataSquare} {c : Nat} (hc : c < ds.width)
    (hempty : [] ∈ ds.square_col.getD c []) :
    ds.compute_col_root c = .error (.IncompleteAxis .Col) := by
  unfold DataSquare.compute_col_root
  rw [col_ok hc]
  have hany : (ds.square_col.getD c []).any List.isEmpty = true :=
    List.any_eq_true.mpr ⟨[], hempty, rfl⟩
  dsimp only
  rw [if_pos hany]

theorem compute_row_root_default_error {ds : DataSquare} {j : Nat} {e : Error}
    (hj : j < ds.width) (ht : ds.create_tree_fn = new_default_tree)
    (h : ds.compute_row_root j = .error e) : e = .IncompleteAxis .Row := by
  unfold DataSquare.compute_row_root at h
  rw [row_ok hj, ht] at h
  dsimp only at h
  split at h
  · injection h with h
    exact h.symm
  · unfold new_default_tree at h
    split at h
    · simp at h
    · rename_i e2 heq2
      split at heq2 <;> simp at heq2

theorem compute_col_root_default_error {ds : DataSquare} {j : Nat} {e : Error}
    (hj : j < ds.width) (ht : ds.create_tree_fn = new_default_tree)
    (h : ds.compute_col_root j = .error e) : e = .IncompleteAxis .Col := by
  unfold DataSquare.compute_col_root at h
  rw [col_ok hj, ht] at h
  dsimp only at h
  split at h
  · injection h with h
    exact h.symm
  · unfold new_default_tree at h
    split at h
    · simp at h
    · rename_i e2 heq2
      split at heq2 <;> simp at heq2

theorem computeRowRootsList_incomplete {ds : DataSquare}
    (ht : ds.create_tree_fn = new_default_tree)
    (h : ∃ r, r < ds.width ∧ [] ∈ ds.square_row.getD r []) :
    ds.computeRowRootsList = .error (.IncompleteAxis .Row) := by
  obtain ⟨r, hr, hempty⟩ := h
  have h1 : ds.compute_row_root r = .error (.IncompleteAxis .Row) :=
    compute_row_root_incomplete hr hempty
  unfold DataSquare.computeRowRootsList
  obtain ⟨e2, he2⟩ := rootsLoop_error_of_mem (List.mem_range.mpr hr) h1
  obtain ⟨j, hj, hfj⟩ := rootsLoop_error_mem he2
  rw [he2, compute_row_root_default_error (List.mem_range.mp hj) ht hfj]

theorem computeColRootsList_incomplete {ds : DataSquare}
    (ht : ds.create_tree_fn = new_default_tree)
    (h : ∃ c, c < ds.width ∧ [] ∈ ds.square_col.getD c []) :
    ds.computeColRootsList = .error (.IncompleteAxis .Col) := by
  obtain ⟨c, hc, hempty⟩ := h
  have h1 : ds.compute_col_root c = .error (.IncompleteAxis .Col) :=
    compute_col_root_incomplete hc hempty
  unfold DataSquare.computeColRootsList
  obtain ⟨e2, he2⟩ := rootsLoop_error_of_mem (List.mem_range.mpr hc) h1
  obtain ⟨j, hj, hfj⟩ := rootsLoop_error_mem he2
  rw [he2, compute_col_root_default_error (List.mem_range.mp hj) ht hfj]

/-! ### Claim theorems -/

/-- Claim C1 (code evaluation at the failing input): for the valid 4-share
original data set (k = 2), `ExtendedDataSquare::compute` returns a square of
width 2 with `original_data_width` 2 — not the 2k = 4 wide extended square
the claim requires, because the source's erasure extension is an
unimplemented TODO. -/
theorem c1_compute_returns_unextended_square :
    (ExtendedDataSquare.compute [[1, 2], [3, 4], [5, 6], [7, 8]] LeoRSCodec
        new_default_tree).map (fun e => (e.width, e.original_data_width))
      = .ok (2, 2) ∧ (2 : Nat) ≠ 2 * 2 := by
  constructor
  · rfl
  · decide

/-- Claim C2 (code evaluation at the failing input): on an imported 2×2
square with root lists of the correct length 2, `repair` returns
`Error::Codec("repair not yet implemented")` — not `Ok`, `ByzantineData` or
`UnrepairableDataSquare` — because the crossword repair algorithm is an
unimplemented TODO in the source. -/
theorem c2_repair_stub_returns_codec_error :
    (ExtendedDataSquare.import [[1, 2], [3, 4], [5, 6], [7, 8]] LeoRSCodec
        new_default_tree).map (fun e => e.repair [[0], [0]] [[0], [0]])
      = .ok (.error (.Codec ("repair not yet implemented"))) := by
  rfl

/-- Claim C3 (code evaluation at the failing input): for the valid 1-share
original data square (k = 1, share size 2), `compute` succeeds but `import`
of its flattened output fails with `InvalidChunkSize`: since `compute`
performs no erasure extension (TODO in the source), the flattened square has
width k = 1, which is odd, instead of the even width 2k the round trip
relies on. -/
theorem c3_compute_then_import_fails :
    (ExtendedDataSquare.compute [[1, 2]] LeoRSCodec new_default_tree).isOk = true ∧
    computeThenImport [[1, 2]] LeoRSCodec new_default_tree = .error .InvalidChunkSize := by
  constructor
  · rfl
  · rfl

/-- Claim C4: for every `ExtendedDataSquare` and root lists, a length
mismatch against `width()` on either list makes `repair` return
`InvalidChunkSize` (the check is the first thing `repair` does, via
`pre_repair_sanity_check`). -/
theorem c4_repair_rejects_wrong_root_lengths (eds : ExtendedDataSquare)
    (row_roots col_roots : List Share)
    (h : row_roots.length ≠ eds.width ∨ col_roots.length ≠ eds.width) :
    eds.repair row_roots col_roots = .error .InvalidChunkSize := by
  unfold ExtendedDataSquare.repair ExtendedDataSquare.pre_repair_sanity_check
  rw [if_pos h]

/-- Witness for C4 at a concrete input: the 2×2 `sampleEDS` with empty root
lists. -/
theorem c4_repair_rejects_wrong_root_lengths_witness :
    (([] : List Share).length ≠ sampleEDS.width ∨
      ([] : List Share).length ≠ sampleEDS.width) ∧
    sampleEDS.repair [] [] = .error .InvalidChunkSize :=
  ⟨Or.inl (by decide),
    c4_repair_rejects_wrong_root_lengths sampleEDS [] [] (Or.inl (by decide))⟩

/-- Counterexample to claim C5 as stated: the share list `[[1],[2,3],[4]]`
has the non-square count 3 (and does not exceed the codec capacity), yet
`import` returns `UnevenChunks`, not `InvalidChunkSize`: the share-length
check inside `DataSquare::new` runs before the squareness check. -/
theorem c5_counterexample :
    ExtendedDataSquare.import [[1], [2, 3], [4]] LeoRSCodec new_default_tree
        = .error .UnevenChunks ∧
    intSqrt ([[1], [2, 3], [4]] : List Share).length *
        intSqrt ([[1], [2, 3], [4]] : List Share).length ≠
      ([[1], [2, 3], [4]] : List Share).length ∧
    ([[1], [2, 3], [4]] : List Share).length ≤ 4 * LeoRSCodec.max_chunks := by
  refine ⟨by rfl, by decide, by decide⟩

/-- Claim C5 as amended: (a) every square accepted by `import` has even,
non-zero width and `original_data_width = width / 2`; (b) a share count that
is not a perfect square, or whose integer square root is odd or zero, yields
`InvalidChunkSize` — provided the count does not exceed 4×`max_chunks()`,
the codec accepts the share size, and all non-empty shares have equal length
(otherwise `TooManyChunks`, the codec's error, or `UnevenChunks` take
precedence); (c) a share count exceeding 4×`max_chunks()` yields
`TooManyChunks`. -/
theorem c5_import_checks (data : List Share) (codec : Codec)
    (tfn : TreeConstructorFn) :
    (∀ eds, ExtendedDataSquare.import data codec tfn = .ok eds →
      eds.width % 2 = 0 ∧ eds.width ≠ 0 ∧
      eds.original_data_width = eds.width / 2) ∧
    (data.length ≤ 4 * codec.max_chunks →
      codec.validate_chunk_size (get_share_size data) = .ok () →
      (∀ x ∈ data, x = [] ∨ x.length = get_share_size data) →
      (intSqrt data.length * intSqrt data.length ≠ data.length ∨
        intSqrt data.length % 2 = 1 ∨ intSqrt data.length = 0) →
      ExtendedDataSquare.import data codec tfn = .error .InvalidChunkSize) ∧
    (data.length > 4 * codec.max_chunks →
      ExtendedDataSquare.import data codec tfn = .error .TooManyChunks) := by
  refine ⟨?_, ?_, ?_⟩
  · intro eds heds
    unfold ExtendedDataSquare.import at heds
    split at heds
    · simp at heds
    · split at heds
      · simp at heds
      · split at heds
        · simp at heds
        · rename_i ds hnew
          split at heds
          · simp at heds
          · rename_i u hvw
            injection heds with heds
            subst heds
            unfold validate_eds_width at hvw
            split at hvw
            · simp at hvw
            · rename_i hcond
              push_neg at hcond
              have h0 : ds.width ≠ 0 := hcond.1
              have h2 : ds.width % 2 = 0 := by
                have := hcond.2
                omega
              exact ⟨h2, h0, rfl⟩
  · intro hle hval hu hbad
    unfold ExtendedDataSquare.import
    rw [if_neg (by omega), hval]
    by_cases hsq : intSqrt data.length * intSqrt data.length = data.length
    · rw [new_eq_ok tfn hu hsq]
      dsimp only
      unfold validate_eds_width
      rw [if_pos ?_]
      rcases hbad with hb | hb | hb
      · exact absurd hsq hb
      · right
        omega
      · left
        exact hb
    · rw [new_error_nonsquare tfn hu hsq]
  · intro hgt
    unfold ExtendedDataSquare.import
    rw [if_pos hgt]

/-- Witness for C5 at concrete inputs: 3 uniform shares of size 2 (a
non-square count within capacity) are rejected with `InvalidChunkSize`. -/
theorem c5_import_checks_witness :
    (([[1, 2], [3, 4], [5, 6]] : List Share).length ≤ 4 * LeoRSCodec.max_chunks) ∧
    LeoRSCodec.validate_chunk_size (get_share_size [[1, 2], [3, 4], [5, 6]]) = .ok () ∧
    (∀ x ∈ ([[1, 2], [3, 4], [5, 6]] : List Share),
      x = [] ∨ x.length = get_share_size [[1, 2], [3, 4], [5, 6]]) ∧
    intSqrt ([[1, 2], [3, 4], [5, 6]] : List Share).length *
        intSqrt ([[1, 2], [3, 4], [5, 6]] : List Share).length ≠
      ([[1, 2], [3, 4], [5, 6]] : List Share).length ∧
    ExtendedDataSquare.import [[1, 2], [3, 4], [5, 6]] LeoRSCodec new_default_tree
      = .error .InvalidChunkSize :=
  ⟨by decide, by rfl, by decide, by decide,
    (c5_import_checks [[1, 2], [3, 4], [5, 6]] LeoRSCodec new_default_tree).2.1
      (by decide) (by rfl) (by decide) (Or.inl (by decide))⟩

/-- Claim C6: `DataSquare::new` rejects a non-uniform non-empty share length
with `UnevenChunks` (checked first), rejects a non-square share count with
`InvalidChunkSize`, and otherwise succeeds with width the integer square
root of the share count and both storage views populated from the same
shares (`square_row[r][c] = square_col[c][r] = data[r·w + c]`). -/
theorem c6_new_validation (data : List Share) (t : TreeConstructorFn) (s : Nat) :
    ((∃ x ∈ data, x ≠ [] ∧ x.length ≠ s) →
      DataSquare.new data t s = .error .UnevenChunks) ∧
    ((∀ x ∈ data, x = [] ∨ x.length = s) →
      intSqrt data.length * intSqrt data.length ≠ data.length →
      DataSquare.new data t s = .error .InvalidChunkSize) ∧
    ((∀ x ∈ data, x = [] ∨ x.length = s) →
      intSqrt data.length * intSqrt data.length = data.length →
      ∃ ds, DataSquare.new data t s = .ok ds ∧
        ds.width = intSqrt data.length ∧
        ds.square_row.length = ds.width ∧
        ds.square_col.length = ds.width ∧
        (∀ r, r < ds.width → ∀ c, c < ds.width →
          (ds.square_row.getD r []).getD c [] = data.getD (r * ds.width + c) [] ∧
          (ds.square_col.getD c []).getD r [] = data.getD (r * ds.width + c) [])) := by
  refine ⟨fun h => new_error_uneven t h, fun hu hsq => new_error_nonsquare t hu hsq, ?_⟩
  intro hu hsq
  refine ⟨_, new_eq_ok t hu hsq, rfl, toRows_length _ _, transposeSquare_length _ _, ?_⟩
  intro r hr c hc
  constructor
  · exact toRows_getD data hr hc
  · have h1 : ((transposeSquare (intSqrt data.length)
          (toRows (intSqrt data.length) data)).getD c []).getD r []
        = ((toRows (intSqrt data.length) data).getD r []).getD c [] :=
      transposeSquare_getD _ hr hc
    exact h1.trans (toRows_getD data hr hc)

/-- Witness for C6 at a concrete input: the uniform 4-share list builds a
2×2 square laid out row-major and column-major from the same shares. -/
theorem c6_new_validation_witness :
    (∀ x ∈ ([[1], [2], [3], [4]] : List Share), x = [] ∨ x.length = 1) ∧
    intSqrt ([[1], [2], [3], [4]] : List Share).length *
        intSqrt ([[1], [2], [3], [4]] : List Share).length
      = ([[1], [2], [3], [4]] : List Share).length ∧
    (∃ ds, DataSquare.new [[1], [2], [3], [4]] new_default_tree 1 = .ok ds ∧
      ds.width = intSqrt ([[1], [2], [3], [4]] : List Share).length ∧
      ds.square_row.length = ds.width ∧
      ds.square_col.length = ds.width ∧
      (∀ r, r < ds.width → ∀ c, c < ds.width →
        (ds.square_row.getD r []).getD c []
          = ([[1], [2], [3], [4]] : List Share).getD (r * ds.width + c) [] ∧
        (ds.square_col.getD c []).getD r []
          = ([[1], [2], [3], [4]] : List Share).getD (r * ds.width + c) [])) :=
  ⟨by decide, by decide,
    (c6_new_validation [[1], [2], [3], [4]] new_default_tree 1).2.2
      (by decide) (by decide)⟩

/-- Claim C7: on any cache-consistent `DataSquare` built on the repository's
default tree, `row_roots` (resp. `col_roots`) returns
`IncompleteAxis{Row}` (resp. `{Col}`) whenever some row (column) contains an
unset share, and `compute_row_root`/`compute_col_root` abort with
`IncompleteAxis` on any incomplete axis before the tree root is taken, so a
root is never computed over an axis with an unset share. -/
theorem c7_roots_incomplete_axis (ds : DataSquare)
    (ht : ds.create_tree_fn = new_default_tree) (hcv : ds.CacheValid) :
    ((∃ r, r < ds.width ∧ [] ∈ ds.square_row.getD r []) →
      (ds.row_roots).1 = .error (.IncompleteAxis .Row)) ∧
    ((∃ c, c < ds.width ∧ [] ∈ ds.square_col.getD c []) →
      (ds.col_roots).1 = .error (.IncompleteAxis .Col)) ∧
    (∀ r, r < ds.width → [] ∈ ds.square_row.getD r [] →
      ds.compute_row_root r = .error (.IncompleteAxis .Row)) ∧
    (∀ c, c < ds.width → [] ∈ ds.square_col.getD c [] →
      ds.compute_col_root c = .error (.IncompleteAxis .Col)) := by
  refine ⟨?_, ?_, fun r hr he => compute_row_root_incomplete hr he,
    fun c hc he => compute_col_root_incomplete hc he⟩
  · intro hex
    have hlist := computeRowRootsList_incomplete ht hex
    unfold DataSquare.row_roots
    cases hcache : ds.row_roots_cache with
    | some roots =>
      have hok := hcv.1 roots hcache
      rw [hok] at hlist
      simp at hlist
    | none =>
      dsimp only
      rw [hlist]
  · intro hex
    have hlist := computeColRootsList_incomplete ht hex
    unfold DataSquare.col_roots
    cases hcache : ds.col_roots_cache with
    | some roots =>
      have hok := hcv.2 roots hcache
      rw [hok] at hlist
      simp at hlist
    | none =>
      dsimp only
      rw [hlist]

/-- Witness for C7 at a concrete input: the 2×2 square with cell (0, 1)
unset. -/
theorem c7_roots_incomplete_axis_witness :
    sampleIncompleteSquare.create_tree_fn = new_default_tree ∧
    (∃ r, r < sampleIncompleteSquare.width ∧
      [] ∈ sampleIncompleteSquare.square_row.getD r []) ∧
    (sampleIncompleteSquare.row_roots).1 = .error (.IncompleteAxis .Row) :=
  ⟨rfl, ⟨0, by decide⟩,
    (c7_roots_incomplete_axis sampleIncompleteSquare rfl
      ⟨fun _ hx => (nomatch hx), fun _ hx => (nomatch hx)⟩).1 ⟨0, by decide⟩⟩

/-- Claim C8: `get_cell` and `set_cell` are total: out-of-range indices give
`InvalidChunkSize` on both, an in-range `set_cell` of non-empty data of the
wrong length gives `UnevenChunks`, and every call lands in exactly the
ok/`InvalidChunkSize`(/`UnevenChunks`) alternatives — there is no other
outcome. -/
theorem c8_cell_access_checks (ds : DataSquare) (r c : Nat) (d : Share) :
    ((r ≥ ds.width ∨ c ≥ ds.width) →
      ds.get_cell r c = .error .InvalidChunkSize ∧
      ds.set_cell r c d = .error .InvalidChunkSize) ∧
    (r < ds.width → c < ds.width → d ≠ [] → d.length ≠ ds.share_size →
      ds.set_cell r c d = .error .UnevenChunks) ∧
    ((∃ s2, ds.get_cell r c = .ok s2) ∨
      ds.get_cell r c = .error .InvalidChunkSize) ∧
    ((∃ ds2, ds.set_cell r c d = .ok ds2) ∨
      ds.set_cell r c d = .error .InvalidChunkSize ∨
      ds.set_cell r c d = .error .UnevenChunks) := by
  refine ⟨?_, ?_, ?_, ?_⟩
  · intro h
    constructor
    · unfold DataSquare.get_cell
      rw [if_pos h]
    · unfold DataSquare.set_cell
      rw [if_pos h]
  · intro hr hc hd hdl
    unfold DataSquare.set_cell
    rw [if_neg (by omega), if_pos ⟨by simpa using hd, hdl⟩]
  · by_cases h : r ≥ ds.width ∨ c ≥ ds.width
    · right
      unfold DataSquare.get_cell
      rw [if_pos h]
    · left
      exact ⟨_, by unfold DataSquare.get_cell; rw [if_neg h]⟩
  · by_cases h : r ≥ ds.width ∨ c ≥ ds.width
    · right
      left
      unfold DataSquare.set_cell
      rw [if_pos h]
    · by_cases hsz : ¬d.isEmpty ∧ d.length ≠ ds.share_size
      · right
        right
        unfold DataSquare.set_cell
        rw [if_neg h, if_pos hsz]
      · left
        exact ⟨_, by unfold DataSquare.set_cell; rw [if_neg h, if_neg hsz]⟩

/-- Witness for C8 at a concrete input: column index 5 is out of range on
the 2×2 `sampleSquare`, so both accessors answer `InvalidChunkSize`. -/
theorem c8_cell_access_checks_witness :
    ((0 : Nat) ≥ sampleSquare.width ∨ (5 : Nat) ≥ sampleSquare.width) ∧
    sampleSquare.get_cell 0 5 = .error .InvalidChunkSize ∧
    sampleSquare.set_cell 0 5 [7] = .error .InvalidChunkSize :=
  ⟨Or.inr (by decide),
    ((c8_cell_access_checks sampleSquare 0 5 [7]).1 (Or.inr (by decide))).1,
    ((c8_cell_access_checks sampleSquare 0 5 [7]).1 (Or.inr (by decide))).2⟩

/-- Counterexample to claim C9 as stated: populate both root caches of the
fully-set 2×2 `sampleSquare`, then overwrite cell (0, 0).  The claim says
the cached roots of row 1 and column 1 stay intact; the code's
`reset_roots` drops the entire row cache and the entire column cache (both
become `None`), so no other row's or column's cached root survives. -/
theorem c9_counterexample :
    (((sampleSquare.row_roots).2.col_roots).2.row_roots_cache.isSome = true) ∧
    (((sampleSquare.row_roots).2.col_roots).2.col_roots_cache.isSome = true) ∧
    ((((sampleSquare.row_roots).2.col_roots).2.set_cell 0 0 [9]).map
        (fun ds2 => (ds2.row_roots_cache.isSome, ds2.col_roots_cache.isSome)))
      = .ok (false, false) :=
  ⟨by rfl, by rfl, by rfl⟩

/-- Claim C9 as amended: a successful `set_cell(r, c, data)` invalidates the
entire row-root cache and the entire column-root cache (the source keeps one
cache per axis direction, not per axis index, and `reset_roots` clears
both), and subsequent `row_roots`/`col_roots` queries recompute from — and
`get_cell(r, c)` reads back — the new cell content. -/
theorem c9_set_cell_resets_caches (ds : DataSquare) (r c : Nat) (d : Share)
    (ds2 : DataSquare) (hwf : ds.WF) (h : ds.set_cell r c d = .ok ds2) :
    ds2.row_roots_cache = none ∧ ds2.col_roots_cache = none ∧
    (ds2.row_roots).1 = ds2.computeRowRootsList ∧
    (ds2.col_roots).1 = ds2.computeColRootsList ∧
    ds2.get_cell r c = .ok d := by
  obtain ⟨hr, hc, hd, rfl⟩ := set_cell_ok_elim h
  obtain ⟨h1, h2, h3, h4, h5⟩ := hwf
  refine ⟨rfl, rfl, ?_, ?_, ?_⟩
  · unfold DataSquare.row_roots
    dsimp only
    split
    · rename_i roots hroots
      rw [hroots]
    · rename_i e he
      rw [he]
  · unfold DataSquare.col_roots
    dsimp only
    split
    · rename_i roots hroots
      rw [hroots]
    · rename_i e he
      rw [he]
  · unfold DataSquare.get_cell
    rw [if_neg (by dsimp only; omega)]
    have e1 : (ds.square_row.set r ((ds.square_row.getD r []).set c d)).getD r []
        = (ds.square_row.getD r []).set c d :=
      getD_set_self _ _ _ _ (by omega)
    have e2 : ((ds.square_row.getD r []).set c d).getD c [] = d :=
      getD_set_self _ _ _ _
        (by have hlen := h3 _ (getD_mem ds.square_row r [] (by omega)); omega)
    dsimp only
    rw [e1, e2]

/-- Witness for C9 at a concrete input: overwriting cell (0, 0) of the 2×2
`sampleSquare` clears both caches and the new value reads back. -/
theorem c9_set_cell_resets_caches_witness :
    sampleSquare.WF ∧
    sampleSquare.set_cell 0 0 [9] = .ok sampleSquareSet ∧
    sampleSquareSet.row_roots_cache = none ∧
    sampleSquareSet.col_roots_cache = none ∧
    sampleSquareSet.get_cell 0 0 = .ok [9] :=
  ⟨⟨by decide, by decide, by decide, by decide, by decide⟩, by rfl,
    (c9_set_cell_resets_caches sampleSquare 0 0 [9] sampleSquareSet
      ⟨by decide, by decide, by decide, by decide, by decide⟩ (by rfl)).1,
    (c9_set_cell_resets_caches sampleSquare 0 0 [9] sampleSquareSet
      ⟨by decide, by decide, by decide, by decide, by decide⟩ (by rfl)).2.1,
    (c9_set_cell_resets_caches sampleSquare 0 0 [9] sampleSquareSet
      ⟨by decide, by decide, by decide, by decide, by decide⟩ (by rfl)).2.2.2.2⟩

/-- Claim C10: every square produced by `DataSquare::new`, after any
sequence of `set_cell` operations (failing ones leave the square unchanged),
is well-formed — in particular `square_col[c][r] = square_row[r][c]` for all
in-range `r`, `c` — and `get_cell`, `row`, `col` and `flattened` all read
the same data as the two storage views. -/
theorem c10_dual_storage_consistency (data : List Share) (t : TreeConstructorFn)
    (s : Nat) (ds0 : DataSquare) (h : DataSquare.new data t s = .ok ds0)
    (ops : List (Nat × Nat × Share)) :
    ((ops.foldl applySet ds0).WF) ∧
    (∀ r, r < (ops.foldl applySet ds0).width →
      ∀ c, c < (ops.foldl applySet ds0).width →
      (ops.foldl applySet ds0).get_cell r c =
        .ok (((ops.foldl applySet ds0).square_row.getD r []).getD c []) ∧
      ((ops.foldl applySet ds0).square_col.getD c []).getD r []
        = ((ops.foldl applySet ds0).square_row.getD r []).getD c [] ∧
      (ops.foldl applySet ds0).row r
        = .ok ((ops.foldl applySet ds0).square_row.getD r []) ∧
      (ops.foldl applySet ds0).col c
        = .ok ((ops.foldl applySet ds0).square_col.getD c []) ∧
      (ops.foldl applySet ds0).flattened.getD
          (r * (ops.foldl applySet ds0).width + c) []
        = ((ops.foldl applySet ds0).square_row.getD r []).getD c []) := by
  have hwf : (ops.foldl applySet ds0).WF := foldl_applySet_WF ops (new_WF h)
  refine ⟨hwf, ?_⟩
  obtain ⟨h1, h2, h3, h4, h5⟩ := hwf
  intro r hr c hc
  refine ⟨?_, h5 r hr c hc, row_ok hr, col_ok hc, ?_⟩
  · unfold DataSquare.get_cell
    rw [if_neg (by omega)]
  · unfold DataSquare.flattened
    exact flatten_getD_uniform _ r h3 (by omega) c [] [] hc

/-- Witness for C10 at a concrete input: build the 2×2 square from 4 shares
and overwrite cell (0, 0); the result stays well-formed. -/
theorem c10_dual_storage_consistency_witness :
    DataSquare.new [[1], [2], [3], [4]] new_default_tree 1 = .ok sampleSquare ∧
    (([((0 : Nat), (0 : Nat), ([9] : Share))].foldl applySet sampleSquare).WF) :=
  ⟨by rfl,
    (c10_dual_storage_consistency [[1], [2], [3], [4]] new_default_tree 1
      sampleSquare (by rfl) [((0 : Nat), (0 : Nat), ([9] : Share))]).1⟩
